import Mathlib

/-!
# Verification of the cuteCore kernel against its specification

Shallow embedding of the parts of the cuteCore OS kernel (RISC-V target)
relevant to the claims under audit: the virtual-address primitives
(`src/os/src/mm/address.rs`), the address-space objects
(`src/os/src/mm/memory_set.rs`), the layout constants
(`src/os/src/hal/arch/riscv/config.rs` and `kernel_stack.rs`), the pipe ring
buffer (`src/os/src/fs/pipe.rs`), and the syscalls `sys_brk`, `sys_wait4`,
`sys_dup3` (`src/os/src/syscall/{process,fs}.rs`).

Machine integers (`usize`) are modelled as `Nat` with explicit `% 2 ^ 64`
where wrap-around matters; bit-masks by powers of two are written as `%`,
sign-extension of 39-bit virtual addresses as `|||`.  Physical frames are
tracked only through the `dataFrames` lists of the map areas; a page table is
modelled as the list of virtual page numbers it currently maps (the claims
under audit only concern which pages are mapped, never the target frames).
-/

namespace CuteCore

/-! ## Layout constants (src/os/src/hal/arch/riscv/config.rs) -/

/-- Size of the usize machine word's value space: `2 ^ 64`. -/
def USIZE_MOD : Nat := 2 ^ 64

/-- `PAGE_SIZE = 0x1000`. -/
def PAGE_SIZE : Nat := 0x1000

/-- `PAGE_SIZE_BITS = 0xc`. -/
def PAGE_SIZE_BITS : Nat := 0xc

/-- `USER_STACK_SIZE = PAGE_SIZE * 2`. -/
def USER_STACK_SIZE : Nat := PAGE_SIZE * 2

/-- `KERNEL_STACK_SIZE = PAGE_SIZE * 2`. -/
def KERNEL_STACK_SIZE : Nat := PAGE_SIZE * 2

/-- `TRAMPOLINE = usize::MAX - PAGE_SIZE + 1`. -/
def TRAMPOLINE : Nat := (USIZE_MOD - 1) - PAGE_SIZE + 1

/-- `TRAP_CONTEXT_BASE = TRAMPOLINE - PAGE_SIZE`. -/
def TRAP_CONTEXT_BASE : Nat := TRAMPOLINE - PAGE_SIZE

/-- `UserStackBase = TRAP_CONTEXT_BASE - 8 * (PAGE_SIZE + USER_STACK_SIZE)`. -/
def UserStackBase : Nat := TRAP_CONTEXT_BASE - 8 * (PAGE_SIZE + USER_STACK_SIZE)

/-! ## Per-thread layout helpers (src/os/src/hal/arch/riscv/kernel_stack.rs)

`tid` never exceeds 8 in the kernel (only 8 stack slots fit between
`UserStackBase` and `TRAP_CONTEXT_BASE`), so the `Nat` subtraction below
agrees with the Rust `usize` subtraction. -/

/-- `trap_cx_bottom_from_tid(tid) = TRAP_CONTEXT_BASE - tid * PAGE_SIZE`. -/
def trap_cx_bottom_from_tid (tid : Nat) : Nat := TRAP_CONTEXT_BASE - tid * PAGE_SIZE

/-- `ustack_bottom_from_tid(tid) = UserStackBase + tid * (PAGE_SIZE + USER_STACK_SIZE)`. -/
def ustack_bottom_from_tid (tid : Nat) : Nat :=
  UserStackBase + tid * (PAGE_SIZE + USER_STACK_SIZE)

/-! ## Addresses and page numbers (src/os/src/mm/address.rs) -/

/-- `VA_WIDTH_SV39 = 39`. -/
def VA_WIDTH_SV39 : Nat := 39

/-- `VirtAddr(pub usize)`. -/
structure VirtAddr where
  val : Nat
deriving DecidableEq

/-- `VirtPageNum(pub usize)`. -/
structure VirtPageNum where
  val : Nat
deriving DecidableEq

/-- `From<usize> for VirtAddr`: `v & ((1 << VA_WIDTH_SV39) - 1)`, i.e. the low
39 bits, written as `% 2 ^ 39`. -/
def VirtAddr.ofUsize (v : Nat) : VirtAddr := ⟨v % 2 ^ VA_WIDTH_SV39⟩

/-- `VirtAddr::floor`: `self.0 / PAGE_SIZE`. -/
def VirtAddr.floor (a : VirtAddr) : VirtPageNum := ⟨a.val / PAGE_SIZE⟩

/-- `VirtAddr::ceil`: `0` for the zero address, else `(self.0 - 1 + PAGE_SIZE) / PAGE_SIZE`. -/
def VirtAddr.ceil (a : VirtAddr) : VirtPageNum :=
  if a.val = 0 then ⟨0⟩ else ⟨(a.val - 1 + PAGE_SIZE) / PAGE_SIZE⟩

/-- `VirtAddr::page_offset`: `self.0 & (PAGE_SIZE - 1)`, written as `% PAGE_SIZE`. -/
def VirtAddr.page_offset (a : VirtAddr) : Nat := a.val % PAGE_SIZE

/-- `VirtAddr::aligned`: `self.page_offset() == 0`. -/
def VirtAddr.aligned (a : VirtAddr) : Bool := a.page_offset == 0

/-- `From<VirtAddr> for usize`: sign-extend at the 39-bit boundary. -/
def VirtAddr.toUsize (a : VirtAddr) : Nat :=
  if 2 ^ (VA_WIDTH_SV39 - 1) ≤ a.val then a.val ||| (USIZE_MOD - 2 ^ VA_WIDTH_SV39) else a.val

/-- `From<VirtPageNum> for VirtAddr`: `v.0 << PAGE_SIZE_BITS` (wrapping on usize). -/
def VirtPageNum.toVirtAddr (p : VirtPageNum) : VirtAddr :=
  ⟨(p.val <<< PAGE_SIZE_BITS) % USIZE_MOD⟩

/-- `align_up(addr, align) = (addr + align - 1) & !(align - 1)` on usize
(wrapping add, then clearing the low bits, written with `%` and `/`). -/
def align_up (addr align : Nat) : Nat :=
  (((addr + align - 1) % USIZE_MOD) / align) * align

/-- `usize::checked_add`. -/
def checked_add (a b : Nat) : Option Nat :=
  if a + b < USIZE_MOD then some (a + b) else none

/-! ## Map areas and memory sets (src/os/src/mm/memory_set.rs) -/

/-- `MapType`: Identical / Framed / Linear(offset). -/
inductive MapType where
  | identical
  | framed
  | linear (off : Int)
deriving DecidableEq

/-- `MapPermission::R` (bit 1). -/
def MapPermission.R : Nat := 2
/-- `MapPermission::W` (bit 2). -/
def MapPermission.W : Nat := 4
/-- `MapPermission::X` (bit 3). -/
def MapPermission.X : Nat := 8
/-- `MapPermission::U` (bit 4). -/
def MapPermission.U : Nat := 16

/-- `MapPermission::from_bits`: `some` exactly when no bit outside `R|W|X|U = 30`
is set (`225 = 0xff - 30` is the complementary mask). -/
def MapPermission.from_bits (b : Nat) : Option Nat :=
  if b &&& 225 = 0 then some b else none

/-- `MapArea`: a half-open vpn range plus the tracked frames (`data_frames`
keys), mapping type and permission bits. -/
structure MapArea where
  vpnStart : Nat
  vpnEnd : Nat
  dataFrames : List Nat
  mapType : MapType
  mapPerm : Nat
deriving DecidableEq

/-- The `assert!(start <= end)` of `VPNRange::new` (src/os/src/mm/address.rs):
constructing a vpn range whose end lies below its start aborts the kernel.
`MapArea::new` builds its `vpn_range` through `VPNRange::new`, so it panics
whenever this predicate is false. -/
def VPNRange.newOk (start_vpn end_vpn : VirtPageNum) : Bool :=
  decide (start_vpn.val ≤ end_vpn.val)

/-- `MapArea::new`: floor the start address, ceil the end address, no frames
yet.  `VPNRange::new`'s assert is `VPNRange.newOk`; it is checked explicitly
at the call site that an inverted range can actually reach
(`MemorySet.mmap`, where the 39-bit mask can wrap the end address below the
start). -/
def MapArea.new (start_va end_va : VirtAddr) (t : MapType) (perm : Nat) : MapArea :=
  ⟨start_va.floor.val, end_va.ceil.val, [], t, perm⟩

/-- `MapArea::check_overlapping`: `is_some` exactly when
`!(end_vpn < area_start || start_vpn > area_end)` (closed-interval test). -/
def MapArea.check_overlapping (a : MapArea) (start_vpn end_vpn : Nat) : Bool :=
  !(decide (end_vpn < a.vpnStart) || decide (a.vpnEnd < start_vpn))

/-- A page table, modelled as the list of virtual page numbers it maps;
`PageTable::map` installs a vpn. -/
def ptMap (pt : List Nat) (vpn : Nat) : List Nat := vpn :: pt

/-- `PageTable::unmap`: clears the entry for `vpn`. -/
def ptUnmap (pt : List Nat) (vpn : Nat) : List Nat := pt.filter (fun v => v ≠ vpn)

/-- The loop of `MapArea::map`: `map_one` for each vpn of the range (for a
Framed area each vpn gets a fresh tracked frame). -/
def MapArea.mapLoop (t : MapType) : List Nat → List Nat → Nat → Nat → List Nat × List Nat
  | frames, pt, _, 0 => (frames, pt)
  | frames, pt, vpn, n + 1 =>
    let frames' := if t = .framed then frames ++ [vpn] else frames
    MapArea.mapLoop t frames' (ptMap pt vpn) (vpn + 1) n

/-- `MapArea::map`: map every vpn of the range, tracking the new frames. -/
def MapArea.map (a : MapArea) (pt : List Nat) : MapArea × List Nat :=
  let p := MapArea.mapLoop a.mapType a.dataFrames pt a.vpnStart (a.vpnEnd - a.vpnStart)
  ({ a with dataFrames := p.1 }, p.2)

/-- The loop of `MapArea::unmap`: `unmap_one` for each vpn of the range
(drop the tracked frame of a Framed area, clear the page-table entry). -/
def MapArea.unmapLoop (t : MapType) : List Nat → List Nat → Nat → Nat → List Nat × List Nat
  | frames, pt, _, 0 => (frames, pt)
  | frames, pt, vpn, n + 1 =>
    let frames' := if t = .framed then frames.filter (fun v => v ≠ vpn) else frames
    MapArea.unmapLoop t frames' (ptUnmap pt vpn) (vpn + 1) n

/-- `MapArea::unmap`: unmap every vpn of the range. -/
def MapArea.unmap (a : MapArea) (pt : List Nat) : MapArea × List Nat :=
  let p := MapArea.unmapLoop a.mapType a.dataFrames pt a.vpnStart (a.vpnEnd - a.vpnStart)
  ({ a with dataFrames := p.1 }, p.2)

/-- `MemorySet`: page table, list of map areas, heap top and heap start. -/
structure MemorySet where
  pageTable : List Nat
  areas : List MapArea
  brk : Nat
  heap_start : Nat
deriving DecidableEq

/-- `MemorySet::new_bare`. -/
def MemorySet.new_bare : MemorySet := ⟨[], [], 0, 0⟩

/-- `MemorySet::push` (no initial data): map the area, append it to `areas`. -/
def MemorySet.push (ms : MemorySet) (a : MapArea) : MemorySet :=
  let p := a.map ms.pageTable
  { ms with pageTable := p.2, areas := ms.areas ++ [p.1] }

/-- `MemorySet::insert_framed_area`. -/
def MemorySet.insert_framed_area (ms : MemorySet) (s e : VirtAddr) (perm : Nat) : MemorySet :=
  ms.push (MapArea.new s e .framed perm)

/-- `MemorySet::map_trampoline`: install the trampoline page directly in the
page table, without touching `areas`. -/
def MemorySet.map_trampoline (ms : MemorySet) : MemorySet :=
  { ms with pageTable := ptMap ms.pageTable (VirtAddr.ofUsize TRAMPOLINE).floor.val }

/-- `MemorySet::recycle_data_pages`: `self.areas.clear()` — the page table is
left untouched. -/
def MemorySet.recycle_data_pages (ms : MemorySet) : MemorySet :=
  { ms with areas := [] }

/-- `TaskUserRes::alloc_user_res`: insert the user stack (R+W+U) and the
trap-context page (R+W) of thread `tid` as framed areas of the process
address space. -/
def alloc_user_res (tid : Nat) (ms : MemorySet) : MemorySet :=
  let ustack_bottom := ustack_bottom_from_tid tid
  let ustack_top := ustack_bottom + USER_STACK_SIZE
  let ms1 := ms.insert_framed_area (VirtAddr.ofUsize ustack_bottom)
    (VirtAddr.ofUsize ustack_top)
    (MapPermission.R ||| MapPermission.W ||| MapPermission.U)
  let trap_cx_bottom := trap_cx_bottom_from_tid tid
  let trap_cx_top := trap_cx_bottom + PAGE_SIZE
  ms1.insert_framed_area (VirtAddr.ofUsize trap_cx_bottom)
    (VirtAddr.ofUsize trap_cx_top)
    (MapPermission.R ||| MapPermission.W)

/-- The vpn at which `map_trampoline` installs the trampoline page. -/
def trampolineVpn : Nat := (VirtAddr.ofUsize TRAMPOLINE).floor.val

/-- The vpn of thread `tid`'s trap-context page. -/
def trapCxVpn (tid : Nat) : Nat := (VirtAddr.ofUsize (trap_cx_bottom_from_tid tid)).floor.val

/-- Whether some area of `areas` covers the vpn `v`. -/
def coversVpn (areas : List MapArea) (v : Nat) : Bool :=
  areas.any (fun a => decide (a.vpnStart ≤ v) && decide (v < a.vpnEnd))

/-! ## munmap and mmap (src/os/src/mm/memory_set.rs) -/

/-- The search-and-remove of `munmap` step 2: find the first area whose range
is exactly `[s, e)` and split the list around it. -/
def splitFirstExact (s e : Nat) : List MapArea → Option (List MapArea × MapArea × List MapArea)
  | [] => none
  | a :: rest =>
    if a.vpnStart = s ∧ a.vpnEnd = e then some ([], a, rest)
    else
      match splitFirstExact s e rest with
      | some (pre, b, post) => some (a :: pre, b, post)
      | none => none

/-- `MemorySet::munmap`.  The Rust function mutates `self` and returns
`Result<(), isize>`; we return the result together with the state, the
error paths returning the unchanged input state. -/
def MemorySet.munmap (ms : MemorySet) (start len : Nat) : Except Int Unit × MemorySet :=
  if len = 0 then (.error (-1), ms)
  else
    let start_va := VirtAddr.ofUsize start
    if !start_va.aligned then (.error (-1), ms)
    else
      match checked_add start len with
      | none => (.error (-1), ms)
      | some e =>
        let end_va := VirtAddr.ofUsize e
        let start_vpn := start_va.floor
        let end_vpn := end_va.ceil
        if end_vpn.val ≤ start_vpn.val then (.error (-1), ms)
        else
          match splitFirstExact start_vpn.val end_vpn.val ms.areas with
          | none => (.error (-1), ms)
          | some (pre, a, post) =>
            let p := a.unmap ms.pageTable
            (.ok (), { ms with pageTable := p.2, areas := pre ++ post })

/-- The inner scan of `find_free_area`: the first area containing `addr`
determines the next candidate address (`area_end`), else `addr + PAGE_SIZE`. -/
def nextAddrAfter (areas : List MapArea) (addr : Nat) : Nat :=
  match areas.find? (fun a =>
      decide ((VirtPageNum.toVirtAddr ⟨a.vpnStart⟩).toUsize ≤ addr) &&
      decide (addr < (VirtPageNum.toVirtAddr ⟨a.vpnEnd⟩).toUsize)) with
  | some a => (VirtPageNum.toVirtAddr ⟨a.vpnEnd⟩).toUsize
  | none => addr + PAGE_SIZE

/-- The search loop of `MemorySet::find_free_area`.  The Rust loop has no
bound; `fuel` makes the model total, `none` standing for divergence. -/
def findFreeLoop (areas : List MapArea) (len : Nat) : Nat → Nat → Option Nat
  | 0, _ => none
  | fuel + 1, addr =>
    let start_vpn := (VirtAddr.ofUsize addr).floor
    let end_vpn := (VirtAddr.ofUsize (addr + len)).ceil
    if areas.any (fun a => a.check_overlapping start_vpn.val end_vpn.val) then
      findFreeLoop areas len fuel (nextAddrAfter areas addr)
    else some addr

/-- `MemorySet::find_free_area`: page-align `len`, search from `brk`, and on
success move `brk` past the returned region. -/
def MemorySet.find_free_area (ms : MemorySet) (len fuel : Nat) : Option (Nat × MemorySet) :=
  let len := align_up len PAGE_SIZE
  match findFreeLoop ms.areas len fuel ms.brk with
  | some addr => some (addr, { ms with brk := addr + len })
  | none => none

/-- `MemorySet::mmap` (anonymous mapping; a supplied file only copies bytes
into the freshly mapped frames and does not alter the page table, the areas
or `brk`, which is all this model tracks).  Result and state are returned as
for `munmap`; `none` models the kernel panic: after the overlap check the
code constructs `MapArea::new(start_va, end_va, ..)`, and when the 39-bit
mask has wrapped `end_vpn` below `start_vpn` this hits `VPNRange::new`'s
`assert!(start <= end)` and aborts.  When `start = 0` the `find_free_area`
call may move `brk` before a later check fails, exactly as in the Rust
code. -/
def MemorySet.mmap (ms : MemorySet) (start len prot flags fuel : Nat) :
    Option (Except Int Nat × MemorySet) :=
  if len = 0 then some (.error (-1), ms)
  else
    let chosen : Option (VirtAddr × MemorySet) :=
      if start = 0 then
        match ms.find_free_area len fuel with
        | some (va, ms') => some (VirtAddr.ofUsize va, ms')
        | none => none
      else
        let va := VirtAddr.ofUsize start
        if !va.aligned then none else some (va, ms)
    match chosen with
    | none => some (.error (-1), ms)
    | some (start_va, ms1) =>
      match checked_add start_va.toUsize len with
      | none => some (.error (-1), ms1)
      | some e =>
        let end_va := VirtAddr.ofUsize e
        let start_vpn := start_va.floor
        let end_vpn := end_va.ceil
        if ms1.areas.any (fun a => a.check_overlapping start_vpn.val end_vpn.val) then
          some (.error (-1), ms1)
        else if VPNRange.newOk start_vpn end_vpn then
          let perm := (MapPermission.from_bits (prot % 256)).getD
            (MapPermission.R ||| MapPermission.W ||| MapPermission.U)
          let ms2 := ms1.insert_framed_area start_va end_va perm
          some (.ok start_va.toUsize, ms2)
        else none

/-- Spec-side notion (from the words of the mmap claim): the half-open page
ranges `[s, e)` and `[s', e')` have a common page. -/
def specRangesOverlap (s e s' e' : Nat) : Prop := max s s' < min e e'

instance specRangesOverlap.instDecidable (s e s' e' : Nat) :
    Decidable (specRangesOverlap s e s' e') :=
  inferInstanceAs (Decidable (max s s' < min e e'))

/-! ## sys_brk (src/os/src/syscall/process.rs) -/

/-- `RING_BUFFER_SIZE = 32`. -/
def RING_BUFFER_SIZE : Nat := 32

/-- `RingBufferStatus`. -/
inductive RingBufferStatus where
  | full
  | empty
  | normal
deriving DecidableEq

/-- `PipeRingBuffer` (the write-end weak reference is modelled separately as
the `writeClosed` flag of the read loop). -/
structure PipeRingBuffer where
  arr : List Nat
  head : Nat
  tail : Nat
  status : RingBufferStatus
deriving DecidableEq

/-- `PipeRingBuffer::new`. -/
def PipeRingBuffer.new : PipeRingBuffer :=
  ⟨List.replicate RING_BUFFER_SIZE 0, 0, 0, .empty⟩

/-- `PipeRingBuffer::write_byte`. -/
def PipeRingBuffer.write_byte (rb : PipeRingBuffer) (byte : Nat) : PipeRingBuffer :=
  let tail' := (rb.tail + 1) % RING_BUFFER_SIZE
  { arr := rb.arr.set rb.tail byte
    head := rb.head
    tail := tail'
    status := if tail' = rb.head then .full else .normal }

/-- `PipeRingBuffer::read_byte`: the byte at `head` and the updated buffer. -/
def PipeRingBuffer.read_byte (rb : PipeRingBuffer) : Nat × PipeRingBuffer :=
  let head' := (rb.head + 1) % RING_BUFFER_SIZE
  (rb.arr.getD rb.head 0,
   { arr := rb.arr
     head := head'
     tail := rb.tail
     status := if head' = rb.tail then .empty else .normal })

/-- `PipeRingBuffer::available_read`. -/
def PipeRingBuffer.available_read (rb : PipeRingBuffer) : Nat :=
  if rb.status = .empty then 0
  else if rb.head < rb.tail then rb.tail - rb.head
  else rb.tail + RING_BUFFER_SIZE - rb.head

/-- `PipeRingBuffer::available_write`. -/
def PipeRingBuffer.available_write (rb : PipeRingBuffer) : Nat :=
  if rb.status = .full then 0 else RING_BUFFER_SIZE - rb.available_read

/-- The inner `for _ in 0..loop_read` of `Pipe::read`: transfer up to `k`
bytes into the user buffer (`acc`), stopping early when the buffer iterator
is exhausted (`already = want`).  The final flag tells whether the read
returned (`true`) or falls through to the outer loop (`false`). -/
def pipeReadChunk : Nat → PipeRingBuffer → Nat → Nat → List Nat →
    Nat × List Nat × PipeRingBuffer × Bool
  | 0, rb, _, already, acc => (already, acc, rb, false)
  | k + 1, rb, want, already, acc =>
    if already = want then (already, acc, rb, true)
    else
      let p := rb.read_byte
      if already + 1 = want then (already + 1, acc ++ [p.1], p.2, true)
      else pipeReadChunk k p.2 want (already + 1) (acc ++ [p.1])

/-- The outer loop of `Pipe::read`.  `writeClosed` is the value of
`all_write_ends_closed`; a suspension re-enters the loop with unchanged
state, so `fuel` bounds the number of iterations (`none` = blocked
forever in this single-task model). -/
def pipeReadLoop (writeClosed nonblocking : Bool) (want : Nat) :
    Nat → PipeRingBuffer → Nat → List Nat → Option (Nat × List Nat × PipeRingBuffer)
  | 0, _, _, _ => none
  | fuel + 1, rb, already, acc =>
    let loop_read := rb.available_read
    if loop_read = 0 then
      if nonblocking then some (already, acc, rb)
      else if writeClosed then some (already, acc, rb)
      else pipeReadLoop writeClosed nonblocking want fuel rb already acc
    else
      match pipeReadChunk loop_read rb want already acc with
      | (already', acc', rb', true) => some (already', acc', rb')
      | (already', acc', rb', false) =>
        pipeReadLoop writeClosed nonblocking want fuel rb' already' acc'

/-- `Pipe::read` on the read end: `want` is the user buffer length. -/
def Pipe.read (writeClosed nonblocking : Bool) (fuel : Nat) (rb : PipeRingBuffer)
    (want : Nat) : Option (Nat × List Nat × PipeRingBuffer) :=
  pipeReadLoop writeClosed nonblocking want fuel rb 0 []

/-- The ring-buffer states reachable from the empty buffer through
`read_byte` / `write_byte` as the pipe read/write operations invoke them:
`write_byte` only with free space, `read_byte` only with bytes available. -/
inductive PipeRingBuffer.Reachable : PipeRingBuffer → Prop where
  | init : Reachable PipeRingBuffer.new
  | write (rb : PipeRingBuffer) (byte : Nat) (h : Reachable rb)
      (hw : 0 < rb.available_write) : Reachable (rb.write_byte byte)
  | read (rb : PipeRingBuffer) (h : Reachable rb)
      (hr : 0 < rb.available_read) : Reachable rb.read_byte.2

/-- The structural invariant behind the status/availability claim. -/
def PipeRingBuffer.inv (rb : PipeRingBuffer) : Prop :=
  rb.head < RING_BUFFER_SIZE ∧ rb.tail < RING_BUFFER_SIZE ∧
    (rb.status = .normal → rb.head ≠ rb.tail)

/-! ## sys_wait4 (src/os/src/syscall/process.rs) -/

/-- The fields of a child `ProcessControlBlock` that `sys_wait4` inspects. -/
structure ChildPCB where
  pid : Nat
  tgid : Nat
  is_zombie : Bool
  exit_code : Int
deriving DecidableEq

/-- `pid as usize` for the isize argument of `sys_wait4` (two's-complement
reinterpretation). -/
def intAsUsize (i : Int) : Nat := (i % (USIZE_MOD : Int)).toNat

/-- The match `pid == -1 || pid as usize == p.getpid()`. -/
def childMatches (pid : Int) (c : ChildPCB) : Bool :=
  pid == -1 || intAsUsize pid == c.pid

/-- The `children.iter().enumerate().find(zombie ∧ match)` followed by
`children.remove(idx)`: the first matching zombie child and the remaining
list. -/
def removeFirstZombie (pid : Int) : List ChildPCB → Option (ChildPCB × List ChildPCB)
  | [] => none
  | c :: cs =>
    if c.is_zombie && childMatches pid c then some (c, cs)
    else
      match removeFirstZombie pid cs with
      | some (z, rest) => some (z, c :: rest)
      | none => none

/-- Outcome of `sys_wait4`: a returned value together with the final
children list and the value written through the user status pointer
(`none` when the pointer is null or nothing is written), or a suspension
(`blocked`, after which the kernel retries). -/
inductive WaitResult where
  | ret (val : Int) (children : List ChildPCB) (statusWrite : Option Int)
  | blocked (children : List ChildPCB)
deriving DecidableEq

/-- The `loop` of `sys_wait4`.  Each pass either returns, suspends, or — when
the first matching zombie is a non-main thread group member
(`pid ≠ tgid`) — drops that child and repeats; the repeat consumes one unit
of `fuel` (a list of `n` children needs at most `n + 1` units). -/
def wait4Iter (pid : Int) (wnohang statusNonnull : Bool) :
    Nat → List ChildPCB → WaitResult
  | 0, children => .blocked children
  | fuel + 1, children =>
    if children.any (childMatches pid) then
      match removeFirstZombie pid children with
      | some (c, rest) =>
        if c.pid = c.tgid then
          .ret (c.pid : Int) rest (if statusNonnull then some c.exit_code else none)
        else wait4Iter pid wnohang statusNonnull fuel rest
      | none =>
        if wnohang then .ret 0 children none else .blocked children
    else .ret (-1) children none

/-- `sys_wait4(pid, status, option)`: `wnohang` is `option & WNOHANG`,
`statusNonnull` is `!status.is_null()`. -/
def sys_wait4 (pid : Int) (wnohang statusNonnull : Bool)
    (children : List ChildPCB) : WaitResult :=
  wait4Iter pid wnohang statusNonnull (children.length + 1) children

/-! ## sys_dup3 (src/os/src/syscall/fs.rs)

A file-descriptor table is a list of optional file capabilities; the
capability itself is abstracted by a numeric identity (cloning an `Arc`
copies the identity). -/

/-- `sys_dup3(old_fd, new_fd, flags)`: result value and final fd table. -/
def sys_dup3 (fdTable : List (Option Nat)) (old_fd new_fd flags : Nat) :
    Int × List (Option Nat) :=
  if flags ≠ 0 then (-1, fdTable)
  else if fdTable.length ≤ old_fd then (-1, fdTable)
  else
    match fdTable.getD old_fd none with
    | none => (-1, fdTable)
    | some file =>
      if old_fd = new_fd then (-1, fdTable)
      else
        let t1 :=
          if fdTable.length ≤ new_fd then
            fdTable ++ List.replicate (new_fd + 1 - fdTable.length) none
          else fdTable
        let t2 := t1.set new_fd none
        ((new_fd : Int), t2.set new_fd (some file))

/-- Concrete address space used as counterexample input for the mmap claim:
one framed area over the single page range `[1, 2)`. -/
def mmapCexMS : MemorySet :=
  ⟨[1], [⟨1, 2, [1], .framed, 22⟩], 0, 0⟩

deriving instance DecidableEq for Except

/-! # Theorems -/

/-! ## Supporting lemmas -/

theorem pipeReadLoop_empty_writeClosed (nb : Bool) (want fuel already : Nat)
    (acc : List Nat) (rb : PipeRingBuffer) (h : rb.available_read = 0) :
    pipeReadLoop true nb want (fuel + 1) rb already acc = some (already, acc, rb) := by
  simp only [pipeReadLoop, h, if_pos rfl]
  cases nb <;> simp

theorem pipe_inv_new : PipeRingBuffer.new.inv := by
  unfold PipeRingBuffer.inv
  refine ⟨by decide, by decide, by decide⟩

theorem pipe_inv_write (rb : PipeRingBuffer) (h : rb.inv) (b : Nat) :
    (rb.write_byte b).inv := by
  obtain ⟨h1, h2, h3⟩ := h
  unfold PipeRingBuffer.inv PipeRingBuffer.write_byte
  refine ⟨h1, Nat.mod_lt _ (by decide), ?_⟩
  intro hs
  by_cases hc : (rb.tail + 1) % RING_BUFFER_SIZE = rb.head
  · simp [hc] at hs
  · exact fun he => hc he.symm

theorem pipe_inv_read (rb : PipeRingBuffer) (h : rb.inv) :
    rb.read_byte.2.inv := by
  obtain ⟨h1, h2, h3⟩ := h
  unfold PipeRingBuffer.inv PipeRingBuffer.read_byte
  refine ⟨Nat.mod_lt _ (by decide), h2, ?_⟩
  intro hs
  by_cases hc : (rb.head + 1) % RING_BUFFER_SIZE = rb.tail
  · simp [hc] at hs
  · exact hc

theorem pipe_reachable_inv (rb : PipeRingBuffer) (h : rb.Reachable) : rb.inv := by
  induction h with
  | init => exact pipe_inv_new
  | write rb b _ hw ih => exact pipe_inv_write rb ih b
  | read rb _ hr ih => exact pipe_inv_read rb ih

/-! ## Claim theorems -/

/-- C8, counterexample: `UserStackBase` is not `TRAP_CONTEXT_BASE - 8 MiB`
(the code subtracts `8 * (PAGE_SIZE + USER_STACK_SIZE) = 96 KiB`). -/
theorem user_stack_base_not_8mib_cex :
    UserStackBase ≠ TRAP_CONTEXT_BASE - 8 * 1024 * 1024 := by decide

/-- C8 (amended): `TRAP_CONTEXT_BASE = TRAMPOLINE - 4 KiB`;
`UserStackBase = TRAP_CONTEXT_BASE - 8 * (PAGE_SIZE + USER_STACK_SIZE)`
(= TRAP_CONTEXT_BASE - 96 KiB, eight slots of one guard page plus 8 KiB of
stack — not 8 MiB); each thread's trap-context page sits at
`TRAP_CONTEXT_BASE - tid * PAGE_SIZE` and each thread's user stack occupies
one guard page plus 8 KiB of stack per TID above `UserStackBase`. -/
theorem user_layout_spec (tid : Nat) :
    TRAP_CONTEXT_BASE = TRAMPOLINE - 4096 ∧
    UserStackBase = TRAP_CONTEXT_BASE - 8 * (4096 + 2 * 4096) ∧
    trap_cx_bottom_from_tid tid = TRAMPOLINE - 4096 - tid * 4096 ∧
    ustack_bottom_from_tid tid = TRAMPOLINE - 4096 - 98304 + tid * (4096 + 8192) := by
  have h0 : TRAMPOLINE = 18446744073709547520 := by decide
  have h1 : TRAP_CONTEXT_BASE = 18446744073709543424 := by decide
  have h2 : UserStackBase = 18446744073709445120 := by decide
  have hp : PAGE_SIZE = 4096 := rfl
  have hu : USER_STACK_SIZE = 8192 := rfl
  refine ⟨by decide, by decide, ?_, ?_⟩
  · unfold trap_cx_bottom_from_tid
    rw [h0, h1, hp]
    try omega
  · unfold ustack_bottom_from_tid
    rw [h0, h2, hp, hu]
    try omega

/-- C9: converting a page-aligned virtual address to a page number with
`floor` and back yields the same address. -/
theorem virt_addr_roundtrip (a : VirtAddr) (hsize : a.val < USIZE_MOD)
    (hal : a.aligned = true) : a.floor.toVirtAddr = a := by
  obtain ⟨v⟩ := a
  have hmod : v % 4096 = 0 := by
    simpa [VirtAddr.aligned, VirtAddr.page_offset, PAGE_SIZE] using hal
  obtain ⟨k, rfl⟩ : 4096 ∣ v := Nat.dvd_of_mod_eq_zero hmod
  have hdiv : 4096 * k / 4096 = k := Nat.mul_div_cancel_left k (by norm_num)
  have hsz : 4096 * k < 2 ^ 64 := by simpa [USIZE_MOD] using hsize
  simp only [VirtAddr.floor, VirtPageNum.toVirtAddr, PAGE_SIZE, PAGE_SIZE_BITS, USIZE_MOD,
    Nat.shiftLeft_eq, VirtAddr.mk.injEq]
  show 4096 * k / 4096 * 2 ^ 12 % 2 ^ 64 = 4096 * k
  rw [hdiv]
  have : k * 2 ^ 12 = 4096 * k := by ring
  rw [this, Nat.mod_eq_of_lt hsz]

/-- Witness for C9 at the concrete aligned address `0x2000`. -/
theorem virt_addr_roundtrip_witness :
    (VirtAddr.mk 8192).floor.toVirtAddr = VirtAddr.mk 8192 :=
  virt_addr_roundtrip ⟨8192⟩ (by decide) (by decide)

/-- C10: `sys_dup3(fd, fd, 0)` returns `-1` and leaves the fd table
unchanged, even when `fd` names a valid open descriptor. -/
theorem sys_dup3_same_fd (t : List (Option Nat)) (fd f : Nat)
    (hlt : fd < t.length) (hopen : t.getD fd none = some f) :
    sys_dup3 t fd fd 0 = (-1, t) := by
  unfold sys_dup3
  rw [if_neg (by simp), if_neg (by omega), hopen]
  simp

/-- Witness for C10: descriptor 0 open in a one-slot table. -/
theorem sys_dup3_same_fd_witness :
    sys_dup3 [some 5] 0 0 0 = (-1, [some 5]) :=
  sys_dup3_same_fd [some 5] 0 5 (by decide) (by decide)

/-- C5: a pipe read that finds no available byte while all write-end strong
references are dropped returns the bytes already copied; in particular a
read of an empty pipe whose write end is closed returns 0. -/
theorem pipe_read_eof_spec (fuel : Nat) (rb : PipeRingBuffer) (nb : Bool)
    (want already : Nat) (acc : List Nat) (h : rb.available_read = 0) :
    pipeReadLoop true nb want (fuel + 1) rb already acc = some (already, acc, rb) ∧
    Pipe.read true nb (fuel + 1) PipeRingBuffer.new want = some (0, [], PipeRingBuffer.new) :=
  ⟨pipeReadLoop_empty_writeClosed nb want fuel already acc rb h,
   pipeReadLoop_empty_writeClosed nb want fuel 0 [] PipeRingBuffer.new (by decide)⟩

/-- Witness for C5: blocking 16-byte read of a fresh pipe with closed write
end returns 0 bytes. -/
theorem pipe_read_eof_spec_witness :
    pipeReadLoop true false 16 1 PipeRingBuffer.new 0 [] =
      some (0, [], PipeRingBuffer.new) ∧
    Pipe.read true false 1 PipeRingBuffer.new 16 = some (0, [], PipeRingBuffer.new) :=
  pipe_read_eof_spec 0 PipeRingBuffer.new false 16 0 [] (by decide)

/-- C6: in every ring-buffer state reachable through the pipe operations,
`Empty` means nothing to read, `Full` means nothing to write, and `Normal`
means both directions have room. -/
theorem pipe_ring_status_spec (rb : PipeRingBuffer) (h : rb.Reachable) :
    (rb.status = .empty → rb.available_read = 0) ∧
    (rb.status = .full → rb.available_write = 0) ∧
    (rb.status = .normal → 0 < rb.available_read ∧ 0 < rb.available_write) := by
  obtain ⟨h1, h2, h3⟩ := pipe_reachable_inv rb h
  have hR : RING_BUFFER_SIZE = 32 := rfl
  rw [hR] at h1 h2
  refine ⟨fun hs => ?_, fun hs => ?_, fun hs => ?_⟩
  · simp [PipeRingBuffer.available_read, hs]
  · simp [PipeRingBuffer.available_write, hs]
  · have hne := h3 hs
    have hs1 : rb.status ≠ .empty := by simp [hs]
    have hs2 : rb.status ≠ .full := by simp [hs]
    unfold PipeRingBuffer.available_write PipeRingBuffer.available_read
    rw [if_neg hs1, if_neg hs2, hR]
    refine ⟨?_, ?_⟩ <;> (split <;> omega)

theorem MapArea.map_fst_vpnStart (a : MapArea) (pt : List Nat) :
    (a.map pt).1.vpnStart = a.vpnStart := rfl

theorem MapArea.map_fst_vpnEnd (a : MapArea) (pt : List Nat) :
    (a.map pt).1.vpnEnd = a.vpnEnd := rfl

theorem MapArea.map_fst_mapType (a : MapArea) (pt : List Nat) :
    (a.map pt).1.mapType = a.mapType := rfl

theorem insert_framed_area_areas (ms : MemorySet) (s e : VirtAddr) (perm : Nat) :
    (ms.insert_framed_area s e perm).areas =
      ms.areas ++ [((MapArea.new s e .framed perm).map ms.pageTable).1] := rfl

theorem coversVpn_insert_framed (ms : MemorySet) (s e : VirtAddr) (perm : Nat) (v : Nat) :
    coversVpn (ms.insert_framed_area s e perm).areas v =
      (coversVpn ms.areas v ||
        (decide (s.floor.val ≤ v) && decide (v < e.ceil.val))) := by
  simp only [coversVpn]
  rw [insert_framed_area_areas, List.any_append]
  congr 1
  simp [MapArea.map_fst_vpnStart, MapArea.map_fst_vpnEnd, MapArea.new]

theorem trap_cx_cover_check (tid : Nat) (h : tid < 8) :
    (decide ((VirtAddr.ofUsize (trap_cx_bottom_from_tid tid)).floor.val ≤ trapCxVpn tid) &&
     decide (trapCxVpn tid <
       (VirtAddr.ofUsize (trap_cx_bottom_from_tid tid + PAGE_SIZE)).ceil.val)) = true := by
  interval_cases tid <;> decide

theorem trampoline_not_in_user_res_windows (tid : Nat) (h : tid < 8) :
    (decide ((VirtAddr.ofUsize (ustack_bottom_from_tid tid)).floor.val ≤ trampolineVpn) &&
     decide (trampolineVpn <
       (VirtAddr.ofUsize (ustack_bottom_from_tid tid + USER_STACK_SIZE)).ceil.val)) = false ∧
    (decide ((VirtAddr.ofUsize (trap_cx_bottom_from_tid tid)).floor.val ≤ trampolineVpn) &&
     decide (trampolineVpn <
       (VirtAddr.ofUsize (trap_cx_bottom_from_tid tid + PAGE_SIZE)).ceil.val)) = false := by
  interval_cases tid <;> exact ⟨by decide, by decide⟩

/-- C1, counterexample: in the address space built by `map_trampoline` and
`TaskUserRes::alloc_user_res` for thread 0, the trap-context page IS covered
by a MapArea tracked in `areas` (the claim says it is not tracked there). -/
theorem trap_cx_tracked_in_areas_cex :
    coversVpn (alloc_user_res 0 (MemorySet.map_trampoline MemorySet.new_bare)).areas
      (trapCxVpn 0) = true := by decide

/-- C1 (amended): the trampoline page is installed directly in the page table
by `map_trampoline` and is not tracked in `areas` (so it survives
`recycle_data_pages`, which clears `areas` and leaves the page table alone);
each thread's trap-context page, however, is inserted through
`insert_framed_area` and is tracked as a MapArea in `areas`. -/
theorem trampoline_direct_trap_cx_tracked (ms : MemorySet) (tid : Nat) (htid : tid < 8) :
    (ms.map_trampoline).areas = ms.areas ∧
    trampolineVpn ∈ (ms.map_trampoline).pageTable ∧
    (ms.recycle_data_pages).areas = [] ∧
    (ms.recycle_data_pages).pageTable = ms.pageTable ∧
    coversVpn (alloc_user_res tid ms).areas (trapCxVpn tid) = true ∧
    (coversVpn ms.areas trampolineVpn = false →
      coversVpn (alloc_user_res tid ms).areas trampolineVpn = false) := by
  refine ⟨rfl, ?_, rfl, rfl, ?_, ?_⟩
  · simp [MemorySet.map_trampoline, ptMap, trampolineVpn]
  · unfold alloc_user_res
    rw [coversVpn_insert_framed, coversVpn_insert_framed, trap_cx_cover_check tid htid]
    simp
  · intro h
    obtain ⟨hu, ht⟩ := trampoline_not_in_user_res_windows tid htid
    unfold alloc_user_res
    rw [coversVpn_insert_framed, coversVpn_insert_framed, h, hu, ht]
    rfl

theorem splitFirstExact_eq_none (s e : Nat) (l : List MapArea)
    (h : ∀ a ∈ l, ¬(a.vpnStart = s ∧ a.vpnEnd = e)) :
    splitFirstExact s e l = none := by
  induction l with
  | nil => rfl
  | cons a rest ih =>
    simp only [splitFirstExact]
    rw [if_neg (h a (List.mem_cons_self a rest)),
      ih (fun b hb => h b (List.mem_cons_of_mem a hb))]

theorem splitFirstExact_of_decomp (s e : Nat) (pre post : List MapArea) (a : MapArea)
    (ha1 : a.vpnStart = s) (ha2 : a.vpnEnd = e)
    (hpre : ∀ b ∈ pre, ¬(b.vpnStart = s ∧ b.vpnEnd = e)) :
    splitFirstExact s e (pre ++ a :: post) = some (pre, a, post) := by
  induction pre with
  | nil => simp [splitFirstExact, ha1, ha2]
  | cons b pre ih =>
    have hb := hpre b (List.mem_cons_self b pre)
    have ih' := ih fun c hc => hpre c (List.mem_cons_of_mem b hc)
    simp [splitFirstExact, hb, ih']

theorem unmapLoop_snd_mem (t : MapType) :
    ∀ (n : Nat) (frames pt : List Nat) (vpn v : Nat),
      v ∈ (MapArea.unmapLoop t frames pt vpn n).2 ↔
        v ∈ pt ∧ ¬(vpn ≤ v ∧ v < vpn + n) := by
  intro n
  induction n with
  | zero =>
    intro frames pt vpn v
    simp only [MapArea.unmapLoop]
    constructor
    · intro h; exact ⟨h, by omega⟩
    · rintro ⟨h, _⟩; exact h
  | succ n ih =>
    intro frames pt vpn v
    simp only [MapArea.unmapLoop]
    rw [ih]
    unfold ptUnmap
    rw [List.mem_filter]
    simp only [decide_eq_true_eq]
    constructor
    · rintro ⟨⟨hv, hne⟩, hni⟩
      exact ⟨hv, by omega⟩
    · rintro ⟨hv, hni⟩
      exact ⟨⟨hv, by omega⟩, by omega⟩

theorem unmap_snd_mem (a : MapArea) (pt : List Nat) (hle : a.vpnStart ≤ a.vpnEnd) (v : Nat) :
    v ∈ (a.unmap pt).2 ↔ v ∈ pt ∧ ¬(a.vpnStart ≤ v ∧ v < a.vpnEnd) := by
  unfold MapArea.unmap
  rw [unmapLoop_snd_mem]
  have h : a.vpnStart + (a.vpnEnd - a.vpnStart) = a.vpnEnd := by omega
  rw [h]

/-- C3: `munmap(start, len)` fails (returning `-1` with the address space
untouched) when `len = 0`, `start` is unaligned, `start + len` overflows, or
the page range `[floor(start), ceil(start+len))` is not exactly the range of
some MapArea; when it is exactly the range of a MapArea (and the basic
checks pass), every vpn of that area is unmapped from the page table, the
area (with its frame trackers) is dropped, and the call succeeds. -/
theorem munmap_spec (ms : MemorySet) (start len : Nat)
    (hwf : ∀ a ∈ ms.areas, a.vpnStart < a.vpnEnd) :
    ((len = 0 ∨ (VirtAddr.ofUsize start).aligned = false ∨ USIZE_MOD ≤ start + len ∨
        ∀ a ∈ ms.areas,
          ¬(a.vpnStart = (VirtAddr.ofUsize start).floor.val ∧
            a.vpnEnd = (VirtAddr.ofUsize (start + len)).ceil.val)) →
      ms.munmap start len = (.error (-1), ms)) ∧
    (∀ pre a post,
      ms.areas = pre ++ a :: post →
      a.vpnStart = (VirtAddr.ofUsize start).floor.val →
      a.vpnEnd = (VirtAddr.ofUsize (start + len)).ceil.val →
      (∀ b ∈ pre, ¬(b.vpnStart = a.vpnStart ∧ b.vpnEnd = a.vpnEnd)) →
      len ≠ 0 → (VirtAddr.ofUsize start).aligned = true → start + len < USIZE_MOD →
      (ms.munmap start len).1 = .ok () ∧
      (ms.munmap start len).2.areas = pre ++ post ∧
      (∀ v, v ∈ (ms.munmap start len).2.pageTable ↔
        (v ∈ ms.pageTable ∧ ¬(a.vpnStart ≤ v ∧ v < a.vpnEnd)))) := by
  constructor
  · intro hdisj
    simp only [MemorySet.munmap]
    by_cases h0 : len = 0
    · rw [if_pos h0]
    · rw [if_neg h0]
      by_cases hal : (VirtAddr.ofUsize start).aligned = true
      · simp only [hal, Bool.not_true, Bool.false_eq_true, if_false]
        by_cases hov : start + len < USIZE_MOD
        · have hca : checked_add start len = some (start + len) := by
            unfold checked_add
            rw [if_pos hov]
          simp only [hca]
          have hnomatch : ∀ a ∈ ms.areas,
              ¬(a.vpnStart = (VirtAddr.ofUsize start).floor.val ∧
                a.vpnEnd = (VirtAddr.ofUsize (start + len)).ceil.val) := by
            rcases hdisj with h | h | h | h
            · exact absurd h h0
            · rw [hal] at h
              exact absurd h (by simp)
            · omega
            · exact h
          by_cases hend : (VirtAddr.ofUsize (start + len)).ceil.val ≤
              (VirtAddr.ofUsize start).floor.val
          · rw [if_pos hend]
          · rw [if_neg hend]
            simp only [splitFirstExact_eq_none _ _ _ hnomatch]
        · have hca : checked_add start len = none := by
            unfold checked_add
            rw [if_neg hov]
          simp only [hca]
      · have hal' : (VirtAddr.ofUsize start).aligned = false := by
          cases h : (VirtAddr.ofUsize start).aligned
          · rfl
          · exact absurd h hal
        simp only [hal', Bool.not_false, if_true]
  · intro pre a post hdec ha1 ha2 hpre h0 hal hov
    have hmem : a ∈ ms.areas := by
      rw [hdec]
      exact List.mem_append_right _ (List.mem_cons_self a post)
    have hlt : a.vpnStart < a.vpnEnd := hwf a hmem
    have hca : checked_add start len = some (start + len) := by
      unfold checked_add
      rw [if_pos hov]
    have hsplit : splitFirstExact (VirtAddr.ofUsize start).floor.val
        (VirtAddr.ofUsize (start + len)).ceil.val ms.areas = some (pre, a, post) := by
      rw [hdec]
      exact splitFirstExact_of_decomp _ _ pre post a ha1 ha2
        (fun b hb hmatch => hpre b hb ⟨hmatch.1.trans ha1.symm, hmatch.2.trans ha2.symm⟩)
    have hres : ms.munmap start len =
        (.ok (), { ms with pageTable := (a.unmap ms.pageTable).2,
                           areas := pre ++ post }) := by
      simp only [MemorySet.munmap]
      rw [if_neg h0]
      simp only [hal, Bool.not_true, Bool.false_eq_true, if_false]
      simp only [hca]
      rw [if_neg (by omega)]
      simp only [hsplit]
    rw [hres]
    exact ⟨rfl, rfl, fun v => unmap_snd_mem a ms.pageTable (by omega) v⟩

/-- C4, counterexample: `mmap(0x2000, 0x1000)` on an address space with one
area over pages `[1, 2)` requests pages `[2, 3)` — `start` is nonzero and
page-aligned and the requested half-open page range overlaps no existing
MapArea, yet the call fails (the code rejects merely adjacent ranges via its
closed-interval test). -/
theorem mmap_adjacent_range_cex :
    mmapCexMS.mmap 8192 4096 0 0 0 = some (.error (-1), mmapCexMS) ∧
    (8192 : Nat) ≠ 0 ∧
    (VirtAddr.ofUsize 8192).aligned = true ∧
    (∀ a ∈ mmapCexMS.areas,
      ¬ specRangesOverlap (VirtAddr.ofUsize 8192).floor.val
        (VirtAddr.ofUsize (8192 + 4096)).ceil.val a.vpnStart a.vpnEnd) := by
  refine ⟨by decide, by decide, by decide, by decide⟩

/-- C4 (amended): `mmap` with `len = 0` fails; with `start ≠ 0` it fails
unless `start` is page-aligned, the sign-extended `start + len` does not
overflow, and the closed page interval `[start_vpn, end_vpn]` is disjoint
from the closed interval `[a.start, a.end]` of every existing MapArea (so a
range merely adjacent to an existing area is also rejected); every failure
leaves the address space unchanged.  When the checks pass and the masked end
page is not below the start page, a Framed area covering the requested range
is appended and the chosen (sign-extended) start address is returned; when
the 39-bit mask has wrapped the end page below the start page the kernel
does not return at all — it panics at `VPNRange::new`'s assert inside
`MapArea::new` (the `none` outcome). -/
theorem mmap_spec (ms : MemorySet) (start len prot flags fuel : Nat) (hstart : start ≠ 0) :
    (len = 0 → ms.mmap start len prot flags fuel = some (.error (-1), ms)) ∧
    (len ≠ 0 → (VirtAddr.ofUsize start).aligned = false →
      ms.mmap start len prot flags fuel = some (.error (-1), ms)) ∧
    (len ≠ 0 → (VirtAddr.ofUsize start).aligned = true →
      USIZE_MOD ≤ (VirtAddr.ofUsize start).toUsize + len →
      ms.mmap start len prot flags fuel = some (.error (-1), ms)) ∧
    (len ≠ 0 → (VirtAddr.ofUsize start).aligned = true →
      (VirtAddr.ofUsize start).toUsize + len < USIZE_MOD →
      (∃ a ∈ ms.areas, a.check_overlapping (VirtAddr.ofUsize start).floor.val
        (VirtAddr.ofUsize ((VirtAddr.ofUsize start).toUsize + len)).ceil.val = true) →
      ms.mmap start len prot flags fuel = some (.error (-1), ms)) ∧
    (len ≠ 0 → (VirtAddr.ofUsize start).aligned = true →
      (VirtAddr.ofUsize start).toUsize + len < USIZE_MOD →
      (∀ a ∈ ms.areas, a.check_overlapping (VirtAddr.ofUsize start).floor.val
        (VirtAddr.ofUsize ((VirtAddr.ofUsize start).toUsize + len)).ceil.val = false) →
      VPNRange.newOk (VirtAddr.ofUsize start).floor
        (VirtAddr.ofUsize ((VirtAddr.ofUsize start).toUsize + len)).ceil = true →
      ∃ ms2 a, ms.mmap start len prot flags fuel =
          some (.ok (VirtAddr.ofUsize start).toUsize, ms2) ∧
        ms2.brk = ms.brk ∧
        ms2.areas = ms.areas ++ [a] ∧
        a.vpnStart = (VirtAddr.ofUsize start).floor.val ∧
        a.vpnEnd = (VirtAddr.ofUsize ((VirtAddr.ofUsize start).toUsize + len)).ceil.val ∧
        a.mapType = .framed) ∧
    (len ≠ 0 → (VirtAddr.ofUsize start).aligned = true →
      (VirtAddr.ofUsize start).toUsize + len < USIZE_MOD →
      (∀ a ∈ ms.areas, a.check_overlapping (VirtAddr.ofUsize start).floor.val
        (VirtAddr.ofUsize ((VirtAddr.ofUsize start).toUsize + len)).ceil.val = false) →
      VPNRange.newOk (VirtAddr.ofUsize start).floor
        (VirtAddr.ofUsize ((VirtAddr.ofUsize start).toUsize + len)).ceil = false →
      ms.mmap start len prot flags fuel = none) := by
  refine ⟨fun h0 => ?_, fun h0 hal => ?_, fun h0 hal hov => ?_,
    fun h0 hal hov hover => ?_, fun h0 hal hov hnone hok => ?_,
    fun h0 hal hov hnone hfail => ?_⟩
  · simp only [MemorySet.mmap]
    rw [if_pos h0]
  · simp only [MemorySet.mmap]
    rw [if_neg h0, if_neg hstart]
    simp only [hal, Bool.not_false, if_true]
  · simp only [MemorySet.mmap]
    rw [if_neg h0, if_neg hstart]
    simp only [hal, Bool.not_true, Bool.false_eq_true, if_false]
    have hca : checked_add (VirtAddr.ofUsize start).toUsize len = none := by
      unfold checked_add
      rw [if_neg (by omega)]
    simp only [hca]
  · simp only [MemorySet.mmap]
    rw [if_neg h0, if_neg hstart]
    simp only [hal, Bool.not_true, Bool.false_eq_true, if_false]
    have hca : checked_add (VirtAddr.ofUsize start).toUsize len =
        some ((VirtAddr.ofUsize start).toUsize + len) := by
      unfold checked_add
      rw [if_pos hov]
    simp only [hca]
    obtain ⟨a, ha, hover'⟩ := hover
    have hany : ms.areas.any (fun a => a.check_overlapping (VirtAddr.ofUsize start).floor.val
        (VirtAddr.ofUsize ((VirtAddr.ofUsize start).toUsize + len)).ceil.val) = true :=
      List.any_eq_true.mpr ⟨a, ha, hover'⟩
    simp [hany]
  · have hca : checked_add (VirtAddr.ofUsize start).toUsize len =
        some ((VirtAddr.ofUsize start).toUsize + len) := by
      unfold checked_add
      rw [if_pos hov]
    have hany : ms.areas.any (fun a => a.check_overlapping (VirtAddr.ofUsize start).floor.val
        (VirtAddr.ofUsize ((VirtAddr.ofUsize start).toUsize + len)).ceil.val) = false := by
      rw [List.any_eq_false]
      intro a ha
      rw [hnone a ha]
      simp
    have hres : ms.mmap start len prot flags fuel =
        some (.ok (VirtAddr.ofUsize start).toUsize,
          ms.insert_framed_area (VirtAddr.ofUsize start)
            (VirtAddr.ofUsize ((VirtAddr.ofUsize start).toUsize + len))
            ((MapPermission.from_bits (prot % 256)).getD
              (MapPermission.R ||| MapPermission.W ||| MapPermission.U))) := by
      simp only [MemorySet.mmap]
      rw [if_neg h0, if_neg hstart]
      simp only [hal, Bool.not_true, Bool.false_eq_true, if_false]
      simp only [hca]
      simp only [hany, Bool.false_eq_true, if_false]
      rw [if_pos hok]
    refine ⟨ms.insert_framed_area (VirtAddr.ofUsize start)
        (VirtAddr.ofUsize ((VirtAddr.ofUsize start).toUsize + len))
        ((MapPermission.from_bits (prot % 256)).getD
          (MapPermission.R ||| MapPermission.W ||| MapPermission.U)),
      ((MapArea.new (VirtAddr.ofUsize start)
        (VirtAddr.ofUsize ((VirtAddr.ofUsize start).toUsize + len)) .framed
        ((MapPermission.from_bits (prot % 256)).getD
          (MapPermission.R ||| MapPermission.W ||| MapPermission.U))).map ms.pageTable).1,
      hres, rfl, insert_framed_area_areas ms _ _ _, ?_, ?_, ?_⟩
    · rw [MapArea.map_fst_vpnStart]
      rfl
    · rw [MapArea.map_fst_vpnEnd]
      rfl
    · rw [MapArea.map_fst_mapType]
      rfl
  · have hca : checked_add (VirtAddr.ofUsize start).toUsize len =
        some ((VirtAddr.ofUsize start).toUsize + len) := by
      unfold checked_add
      rw [if_pos hov]
    have hany : ms.areas.any (fun a => a.check_overlapping (VirtAddr.ofUsize start).floor.val
        (VirtAddr.ofUsize ((VirtAddr.ofUsize start).toUsize + len)).ceil.val) = false := by
      rw [List.any_eq_false]
      intro a ha
      rw [hnone a ha]
      simp
    simp only [MemorySet.mmap]
    rw [if_neg h0, if_neg hstart]
    simp only [hal, Bool.not_true, Bool.false_eq_true, if_false]
    simp only [hca]
    simp only [hany, Bool.false_eq_true, if_false]
    rw [if_neg (by simp [hfail])]

/-- Witness for C4 (amended): anonymous fixed mapping of one page at
`0x1000` into the empty address space succeeds and appends the area. -/
theorem mmap_spec_witness :
    ∃ ms2 a, MemorySet.new_bare.mmap 4096 4096 0 0 0 =
        some (.ok (VirtAddr.ofUsize 4096).toUsize, ms2) ∧
      ms2.brk = MemorySet.new_bare.brk ∧
      ms2.areas = MemorySet.new_bare.areas ++ [a] ∧
      a.vpnStart = (VirtAddr.ofUsize 4096).floor.val ∧
      a.vpnEnd = (VirtAddr.ofUsize ((VirtAddr.ofUsize 4096).toUsize + 4096)).ceil.val ∧
      a.mapType = .framed :=
  (mmap_spec MemorySet.new_bare 4096 4096 0 0 0 (by decide)).2.2.2.2.1
    (by decide) (by decide) (by decide) (by simp [MemorySet.new_bare]) (by decide)

theorem removeFirstZombie_eq_none (pid : Int) (l : List ChildPCB)
    (h : ∀ c ∈ l, (c.is_zombie && childMatches pid c) = false) :
    removeFirstZombie pid l = none := by
  induction l with
  | nil => rfl
  | cons c cs ih =>
    have hc := h c (List.mem_cons_self c cs)
    have ih' := ih fun d hd => h d (List.mem_cons_of_mem c hd)
    simp [removeFirstZombie, hc, ih']

theorem removeFirstZombie_eq_some (pid : Int) :
    ∀ (l rest : List ChildPCB) (z : ChildPCB),
      removeFirstZombie pid l = some (z, rest) →
      (z.is_zombie && childMatches pid z) = true ∧ z ∈ l ∧
      rest.length + 1 = l.length ∧
      (∀ c ∈ l, c = z ∨ c ∈ rest) ∧ (∀ c ∈ rest, c ∈ l) := by
  intro l
  induction l with
  | nil => intro rest z h; simp [removeFirstZombie] at h
  | cons c cs ih =>
    intro rest z h
    simp only [removeFirstZombie] at h
    by_cases hc : (c.is_zombie && childMatches pid c) = true
    · rw [if_pos hc] at h
      simp only [Option.some.injEq, Prod.mk.injEq] at h
      obtain ⟨rfl, rfl⟩ := h
      refine ⟨hc, List.mem_cons_self _ _, by simp, ?_, ?_⟩
      · intro d hd
        rcases List.mem_cons.mp hd with rfl | hd
        · exact Or.inl rfl
        · exact Or.inr hd
      · intro d hd
        exact List.mem_cons_of_mem _ hd
    · rw [if_neg hc] at h
      cases hrec : removeFirstZombie pid cs with
      | none => rw [hrec] at h; simp at h
      | some p =>
        obtain ⟨z', rest'⟩ := p
        rw [hrec] at h
        simp only [Option.some.injEq, Prod.mk.injEq] at h
        obtain ⟨rfl, rfl⟩ := h
        obtain ⟨hz1, hz2, hz3, hz4, hz5⟩ := ih rest' _ hrec
        refine ⟨hz1, List.mem_cons_of_mem c hz2, by simp [← hz3], ?_, ?_⟩
        · intro d hd
          rcases List.mem_cons.mp hd with rfl | hd
          · exact Or.inr (List.mem_cons_self d rest')
          · rcases hz4 d hd with h' | h'
            · exact Or.inl h'
            · exact Or.inr (List.mem_cons_of_mem c h')
        · intro d hd
          rcases List.mem_cons.mp hd with rfl | hd
          · exact List.mem_cons_self d cs
          · exact List.mem_cons_of_mem c (hz5 d hd)

theorem removeFirstZombie_none_forall (pid : Int) :
    ∀ (l : List ChildPCB), removeFirstZombie pid l = none →
      ∀ c ∈ l, (c.is_zombie && childMatches pid c) = false := by
  intro l
  induction l with
  | nil => intro _ c hc; simp at hc
  | cons c cs ih =>
    intro h d hd
    simp only [removeFirstZombie] at h
    by_cases hc : (c.is_zombie && childMatches pid c) = true
    · rw [if_pos hc] at h
      simp at h
    · rw [if_neg hc] at h
      cases hrec : removeFirstZombie pid cs with
      | some p =>
        obtain ⟨z, rest⟩ := p
        rw [hrec] at h
        simp at h
      | none =>
        rcases List.mem_cons.mp hd with rfl | hd
        · cases hb : (d.is_zombie && childMatches pid d)
          · rfl
          · exact absurd hb hc
        · exact ih hrec d hd

theorem wait4Iter_reaps (pid : Int) (wnohang sn : Bool) :
    ∀ (fuel : Nat) (children : List ChildPCB), children.length < fuel →
      (∃ c ∈ children, childMatches pid c = true ∧ c.is_zombie = true ∧ c.tgid = c.pid) →
      ∃ c rest, wait4Iter pid wnohang sn fuel children =
          .ret (c.pid : Int) rest (if sn then some c.exit_code else none) ∧
        c ∈ children ∧ childMatches pid c = true ∧ c.is_zombie = true ∧ c.tgid = c.pid ∧
        rest.length < children.length := by
  intro fuel
  induction fuel with
  | zero => intro children hlen _; exact absurd hlen (Nat.not_lt_zero _)
  | succ fuel ih =>
    rintro children hlen ⟨c, hc, hm, hz, ht⟩
    have hany : children.any (childMatches pid) = true :=
      List.any_eq_true.mpr ⟨c, hc, hm⟩
    cases hrem : removeFirstZombie pid children with
    | none =>
      exfalso
      have hall := removeFirstZombie_none_forall pid children hrem c hc
      rw [hz, hm] at hall
      simp at hall
    | some p =>
      obtain ⟨z, rest⟩ := p
      obtain ⟨hz1, hz2, hz3, hz4, hz5⟩ := removeFirstZombie_eq_some pid children rest z hrem
      simp only [wait4Iter, hany, if_true, hrem]
      by_cases hzt : z.pid = z.tgid
      · rw [if_pos hzt]
        obtain ⟨hzz, hzm⟩ : z.is_zombie = true ∧ childMatches pid z = true := by
          simpa using hz1
        exact ⟨z, rest, rfl, hz2, hzm, hzz, hzt.symm, by omega⟩
      · rw [if_neg hzt]
        have hcz : c ≠ z := by
          rintro rfl
          exact hzt ht.symm
        have hcr : c ∈ rest := by
          rcases hz4 c hc with h' | h'
          · exact absurd h' hcz
          · exact h'
        obtain ⟨c', rest', heq, hmem', hp1, hp2, hp3, hlen'⟩ :=
          ih rest (by omega) ⟨c, hcr, hm, hz, ht⟩
        exact ⟨c', rest', heq, hz5 c' hmem', hp1, hp2, hp3, by omega⟩

/-- C2: in each pass of `sys_wait4`: with no matching child the call returns
`-1`; with matching children none of which is a zombie it returns `0` under
WNOHANG and suspends (to retry) otherwise; and when a matching zombie child
with `tgid = pid` exists, such a child is removed from the children list,
its exit code is written through the status pointer when that pointer is
non-null, and its pid is returned. -/
theorem sys_wait4_spec (pid : Int) (wnohang sn : Bool) (children : List ChildPCB) :
    ((∀ c ∈ children, childMatches pid c = false) →
      sys_wait4 pid wnohang sn children = .ret (-1) children none) ∧
    ((∃ c ∈ children, childMatches pid c = true) →
     (∀ c ∈ children, childMatches pid c = true → c.is_zombie = false) →
      sys_wait4 pid wnohang sn children =
        if wnohang then .ret 0 children none else .blocked children) ∧
    ((∃ c ∈ children, childMatches pid c = true ∧ c.is_zombie = true ∧ c.tgid = c.pid) →
      ∃ c rest, sys_wait4 pid wnohang sn children =
          .ret (c.pid : Int) rest (if sn then some c.exit_code else none) ∧
        c ∈ children ∧ childMatches pid c = true ∧ c.is_zombie = true ∧ c.tgid = c.pid ∧
        rest.length < children.length) := by
  refine ⟨fun hno => ?_, fun hex hnz => ?_, fun hzomb => ?_⟩
  · have hany : children.any (childMatches pid) = false := by
      rw [List.any_eq_false]
      intro c hc
      rw [hno c hc]
      simp
    unfold sys_wait4 wait4Iter
    simp [hany]
  · obtain ⟨c, hc, hm⟩ := hex
    have hany : children.any (childMatches pid) = true :=
      List.any_eq_true.mpr ⟨c, hc, hm⟩
    have hrem : removeFirstZombie pid children = none := by
      apply removeFirstZombie_eq_none
      intro d hd
      cases hmd : childMatches pid d
      · simp [hmd]
      · rw [hnz d hd hmd]
        simp
    unfold sys_wait4 wait4Iter
    simp only [hany, if_true, hrem]
  · exact wait4Iter_reaps pid wnohang sn (children.length + 1) children
      (by omega) hzomb

/-- Witness for C2: waiting with no children at all returns `-1`. -/
theorem sys_wait4_spec_witness :
    sys_wait4 (-1) false true [] = .ret (-1) [] none :=
  (sys_wait4_spec (-1) false true []).1 (by simp)

/-- Witness for C3: unmapping a zero-length range of the empty address space
fails and leaves everything unchanged. -/
theorem munmap_spec_witness :
    MemorySet.new_bare.munmap 0 0 = (.error (-1), MemorySet.new_bare) :=
  (munmap_spec MemorySet.new_bare 0 0 (by simp [MemorySet.new_bare])).1 (Or.inl rfl)

/-- Witness for C1 (amended) at the empty address space and thread 0. -/
theorem trampoline_direct_trap_cx_tracked_witness :
    (MemorySet.new_bare.map_trampoline).areas = MemorySet.new_bare.areas ∧
    trampolineVpn ∈ (MemorySet.new_bare.map_trampoline).pageTable ∧
    (MemorySet.new_bare.recycle_data_pages).areas = [] ∧
    (MemorySet.new_bare.recycle_data_pages).pageTable = MemorySet.new_bare.pageTable ∧
    coversVpn (alloc_user_res 0 MemorySet.new_bare).areas (trapCxVpn 0) = true ∧
    (coversVpn MemorySet.new_bare.areas trampolineVpn = false →
      coversVpn (alloc_user_res 0 MemorySet.new_bare).areas trampolineVpn = false) :=
  trampoline_direct_trap_cx_tracked MemorySet.new_bare 0 (by decide)

/-- Witness for C6 at the initial empty buffer. -/
theorem pipe_ring_status_spec_witness :
    (PipeRingBuffer.new.status = .empty → PipeRingBuffer.new.available_read = 0) ∧
    (PipeRingBuffer.new.status = .full → PipeRingBuffer.new.available_write = 0) ∧
    (PipeRingBuffer.new.status = .normal →
      0 < PipeRingBuffer.new.available_read ∧ 0 < PipeRingBuffer.new.available_write) :=
  pipe_ring_status_spec PipeRingBuffer.new PipeRingBuffer.Reachable.init

end CuteCore
